import Mathlib

/-!
# file_sender: watcher, uploader, archive mover and log rotator

A shallow embedding of `sender.go`.  Go strings are lists of bytes, the clock is an
integer number of nanoseconds, directories are finite lists of entry names, and every call
into the operating system or the network takes its outcome from an explicit environment
record, so that each function below is a pure function of its inputs.
-/

set_option maxRecDepth 20000

namespace FileSender

/-! ## Strings and the library functions used on them -/

/-- A Go string: a sequence of bytes.  Lengths, slices and comparisons count bytes. -/
abbrev GoString := List UInt8

/-- A string literal of the source, as its UTF-8 bytes. -/
def bytes (s : String) : GoString := s.toList.flatMap String.utf8EncodeChar

/-- The function `os.IsPathSeparator` on a Unix system. -/
def isPathSeparator (c : UInt8) : Bool := c == Char.toUInt8 '/'

/-- The loop of `filepath.Ext`: walk from the last byte towards the first, stop
at a path separator, and return the suffix that starts at the first dot met.  The first
argument is the part of the path not yet visited, reversed; the second is the suffix
already walked over. -/
def extScan : List UInt8 → List UInt8 → GoString
  | [], _ => []
  | c :: rest, acc =>
    if isPathSeparator c then []
    else if c == Char.toUInt8 '.' then c :: acc
    else extScan rest (c :: acc)

/-- The function `filepath.Ext`: the suffix beginning at the final dot of the final path
element, empty when there is no dot. -/
def Ext (path : GoString) : GoString := extScan path.reverse []

/-- The function `strings.TrimSuffix`. -/
def TrimSuffix (s suffix : GoString) : GoString :=
  if suffix.isSuffixOf s then s.take (s.length - suffix.length) else s

/-- The byte of the decimal digit `d`. -/
def digitByte (d : Nat) : UInt8 := Char.toUInt8 (Nat.digitChar d)

/-- Decimal digits of `n`, most significant first; the first argument bounds the number
of digits produced. -/
def decimal : Nat → Nat → GoString
  | 0, _ => []
  | fuel + 1, n =>
    if n < 10 then [digitByte n]
    else decimal fuel (n / 10) ++ [digitByte (n % 10)]

/-- The verb `%d` of `fmt.Sprintf` on a non-negative integer. -/
def itoa (n : Nat) : GoString := decimal (n + 1) n

/-! ## ArchiveMover (`moveToArchive`, lines 536-570)

The dated archive directory is the list of the names of its entries.  A destination path
`filepath.Join(destDir, n)` is identified with the entry name `n`, and `filepath.Base` of
such a path with `n` again.  The counter is a natural number. -/

/-- The three outcomes of `os.Stat` the program tells apart. -/
inductive StatResult where
  /-- The error is `nil`: the file exists. -/
  | found
  /-- The error satisfies `os.IsNotExist`. -/
  | notExist
  /-- Any other error, such as `ENAMETOOLONG`. -/
  | otherError
deriving DecidableEq, Repr

/-- The call `os.Stat` on the entry `name` of a directory with the entries `entries`, on a
filesystem whose names hold at most `nameMax` bytes: a longer name is refused with
`ENAMETOOLONG`, which is not a not-exist error. -/
def dirStat (nameMax : Nat) (entries : List GoString) (name : GoString) : StatResult :=
  if nameMax < name.length then .otherError
  else if name ∈ entries then .found
  else .notExist

/-- Lines 556-558: the next candidate, built from the CURRENT candidate `destPath`:
`ext := filepath.Ext(destPath)`, `baseName := strings.TrimSuffix(filepath.Base(destPath), ext)`,
`destPath = fmt.Sprintf("%s_%d%s", baseName, counter, ext)`. -/
def nextDest (destPath : GoString) (counter : Nat) : GoString :=
  let ext := Ext destPath
  let baseName := TrimSuffix destPath ext
  baseName ++ Char.toUInt8 '_' :: itoa counter ++ ext

/-- Lines 552-560: the collision loop.  It is left only when `os.Stat(destPath)` fails
with a not-exist error; on success and on every other error the next candidate is built.
The first argument bounds the number of iterations; `none` means the bound was reached. -/
def collisionLoop (stat : GoString → StatResult) : Nat → GoString → Nat → Option GoString
  | 0, _, _ => none
  | fuel + 1, destPath, counter =>
    if stat destPath = .notExist then some destPath
    else collisionLoop stat fuel (nextDest destPath counter) (counter + 1)

/-- The candidate the collision loop tries after `k` collisions, starting from `destPath`
with the counter at `counter`. -/
def candidateAt : Nat → GoString → Nat → GoString
  | 0, destPath, _ => destPath
  | k + 1, destPath, counter => candidateAt k (nextDest destPath counter) (counter + 1)

/-- The first `k` candidates of the collision loop: the names under which `k` files of the
same base name are archived one after the other on the same day. -/
def candidates : Nat → GoString → Nat → List GoString
  | 0, _, _ => []
  | k + 1, destPath, counter =>
    destPath :: candidates k (nextDest destPath counter) (counter + 1)

/-- The filesystem as `moveToArchive` meets it. -/
structure ArchiveEnv where
  /-- The call `os.MkdirAll(destDir)` fails (only made when `destDir` is absent). -/
  mkdirErr : Bool
  /-- The call `os.Rename(filePath, destPath)` fails. -/
  renameErr : Bool
  /-- The longest name, in bytes, the filesystem accepts (255 on the usual ones). -/
  nameMax : Nat
deriving DecidableEq, Repr

/-- What one call of `moveToArchive` did. -/
inductive MoveOutcome where
  /-- Lines 542-545: the dated directory could not be created. -/
  | mkdirFailed
  /-- The collision loop is never left, so `moveToArchive` does not return: the loop is
  still running after one iteration per entry plus one, and then runs forever. -/
  | neverReturns
  /-- Lines 562-566: the rename to the chosen destination failed. -/
  | renameFailed (dest : GoString)
  /-- The file now lives in the dated directory under the name `dest`. -/
  | moved (dest : GoString)
deriving DecidableEq, Repr

/-- The function `moveToArchive`, on the dated directory (`none` when it does not exist yet)
and the base name of the file.  Returns the outcome and the dated directory afterwards.
The log line written after a successful move is not part of the result. -/
def moveToArchive (env : ArchiveEnv) (destDir : Option (List GoString)) (base : GoString) :
    MoveOutcome × Option (List GoString) :=
  if destDir.isNone && env.mkdirErr then (.mkdirFailed, destDir)
  else
    let existing := destDir.getD []
    match collisionLoop (dirStat env.nameMax existing) (existing.length + 1) base 1 with
    | none => (.neverReturns, some existing)
    | some destPath =>
      if env.renameErr then (.renameFailed destPath, some existing)
      else (.moved destPath, some (destPath :: existing))

/-! ## Go maps -/

/-- A Go `map[string]β`, as an association list read at its first matching entry. -/
abbrev GoMap (β : Type) := List (GoString × β)

/-- The lookup `v, exists := m[k]`. -/
def mapGet {β : Type} (m : GoMap β) (k : GoString) : Option β := List.lookup k m

/-- The statement `delete(m, k)`. -/
def mapDelete {β : Type} (m : GoMap β) (k : GoString) : GoMap β :=
  m.filter (fun e => e.1 != k)

/-- The assignment `m[k] = v`. -/
def mapSet {β : Type} (m : GoMap β) (k : GoString) (v : β) : GoMap β :=
  (k, v) :: mapDelete m k

/-- The keys visited by `for k := range m`. -/
def mapKeys {β : Type} (m : GoMap β) : List GoString := m.map Prod.fst

/-! ## Watcher (`watchFiles`, `isFileUnchanged`, lines 379-435)

Clock readings and durations are integers counting nanoseconds.  Only the watcher
goroutine reads or writes `fileFirstSeen`, so the map is threaded through the loop body. -/

/-- The constant `time.Second`, in nanoseconds. -/
def Second : Int := 1000000000

/-- One `os.DirEntry` of the listing of the source directory.  `modTime` is the
modification time the entry would report through `Info()`; the watcher never asks for it. -/
structure DirEntry where
  name : GoString
  isDir : Bool
  modTime : Int
deriving DecidableEq, Repr

/-- One entry of a listing together with the two clock readings taken while the loop body
handles it: `seenAt` is `time.Now()` of line 398 and `checkedAt` is the clock behind
`time.Since` of line 434. -/
structure Observation where
  entry : DirEntry
  seenAt : Int
  checkedAt : Int
deriving DecidableEq, Repr

/-- The function `isFileUnchanged` (lines 425-435); `now` is the clock read by `time.Since`. -/
def isFileUnchanged (fileFirstSeen : GoMap Int) (filePath : GoString) (now : Int) : Bool :=
  match mapGet fileFirstSeen filePath with
  | none => false
  | some firstSeen => decide (now - firstSeen > 2 * Second)

/-- The variables of one iteration of the loop of `watchFiles`: the tracker, the set
`currentFiles`, and the paths sent on `fileChan` so far, oldest first. -/
structure WatchState where
  fileFirstSeen : GoMap Int
  currentFiles : List GoString
  pushed : List GoString
deriving DecidableEq, Repr

/-- Lines 391-409: the body of `for _, file := range files`.  `join` is
`filepath.Join(sendDir, ·)`. -/
def visit (join : GoString → GoString) (st : WatchState) (o : Observation) : WatchState :=
  if !o.entry.isDir then
    let filePath := join o.entry.name
    let currentFiles := filePath :: st.currentFiles
    let fileFirstSeen :=
      if (mapGet st.fileFirstSeen filePath).isNone then mapSet st.fileFirstSeen filePath o.seenAt
      else st.fileFirstSeen
    if isFileUnchanged fileFirstSeen filePath o.checkedAt then
      { fileFirstSeen := fileFirstSeen, currentFiles := currentFiles,
        pushed := st.pushed ++ [filePath] }
    else
      { fileFirstSeen := fileFirstSeen, currentFiles := currentFiles, pushed := st.pushed }
  else st

/-- Lines 413-420: drop every tracked path that is not in `currentFiles`. -/
def forget (currentFiles : List GoString) (fileFirstSeen : GoMap Int) : GoMap Int :=
  (mapKeys fileFirstSeen).foldl
    (fun m filePath => if !currentFiles.contains filePath then mapDelete m filePath else m)
    fileFirstSeen

/-- Lines 389-410: the loop over the listing, started with an empty `currentFiles`. -/
def visitAll (join : GoString → GoString) (fileFirstSeen : GoMap Int)
    (files : List Observation) : WatchState :=
  files.foldl (visit join) { fileFirstSeen := fileFirstSeen, currentFiles := [], pushed := [] }

/-- What one iteration of the loop of `watchFiles` leaves behind: the tracker and the
paths it sent on `fileChan`, in order. -/
structure PollResult where
  fileFirstSeen : GoMap Int
  pushed : List GoString
deriving DecidableEq, Repr

/-- One iteration of the loop of `watchFiles` (lines 382-421).  `readDir` is the result of
`os.ReadDir(sendDir)`: `none` for an error, otherwise the listing. -/
def pollOnce (join : GoString → GoString) (fileFirstSeen : GoMap Int)
    (readDir : Option (List Observation)) : PollResult :=
  match readDir with
  | none => { fileFirstSeen := fileFirstSeen, pushed := [] }
  | some files =>
    let st := visitAll join fileFirstSeen files
    { fileFirstSeen := forget st.currentFiles st.fileFirstSeen, pushed := st.pushed }

/-- The full paths of the non-directory entries of a listing. -/
def listedPaths (join : GoString → GoString) (files : List Observation) : List GoString :=
  (files.filter (fun o => !o.entry.isDir)).map (fun o => join o.entry.name)

/-! ### Watcher and workers together

The source directory, the tracker and the history of `fileChan`, driven by two kinds of
events: a watcher iteration, and the return of a worker whose upload and move succeeded. -/

/-- The state shared by the watcher and the workers. -/
structure Sys where
  /-- The entries of the source directory. -/
  sendDir : List DirEntry
  fileFirstSeen : GoMap Int
  /-- Every path sent on `fileChan` so far, oldest first. -/
  pushed : List GoString
  /-- The paths received by a worker whose `sendFile` has not returned yet. -/
  inFlight : List GoString
deriving DecidableEq, Repr

/-- The events of the system.  Neither of them is a failure.  A push always completes: it
waits for a free worker, and the listing it came from was read before the wait. -/
inductive Event where
  /-- One iteration of `watchFiles` whose directory read succeeds, every clock reading of
  the iteration being `now`. -/
  | poll (now : Int)
  /-- A worker returns from `sendFile(filePath)` with `nil`: the server answered 200 and the
  file was renamed into the archive, so it leaves the source directory. -/
  | sent (filePath : GoString)
deriving DecidableEq, Repr

/-- One event. -/
def step (join : GoString → GoString) (s : Sys) : Event → Sys
  | .poll now =>
    let r := pollOnce join s.fileFirstSeen
      (some (s.sendDir.map (fun e => { entry := e, seenAt := now, checkedAt := now })))
    { s with fileFirstSeen := r.fileFirstSeen, pushed := s.pushed ++ r.pushed,
             inFlight := s.inFlight ++ r.pushed }
  | .sent filePath =>
    if filePath ∈ s.inFlight ∧ ∃ e ∈ s.sendDir, e.isDir = false ∧ join e.name = filePath then
      { s with sendDir := s.sendDir.filter (fun e => join e.name != filePath),
               inFlight := s.inFlight.erase filePath }
    else s

/-- A sequence of events, first to last. -/
def run (join : GoString → GoString) (s : Sys) (events : List Event) : Sys :=
  events.foldl (step join) s

/-- The full paths of the files (non-directory entries) of the source directory. -/
def sysPaths (join : GoString → GoString) (s : Sys) : List GoString :=
  (s.sendDir.filter (fun e => !e.isDir)).map (fun e => join e.name)

/-- No path is in flight whenever a poll of the sequence starts: every worker that
received a path has returned before the watcher reads the directory again. -/
def prompt (join : GoString → GoString) : Sys → List Event → Bool
  | _, [] => true
  | s, e :: rest =>
    (match e with
      | .poll _ => s.inFlight.isEmpty
      | .sent _ => true) && prompt join (step join s e) rest

/-! ## Uploader (`sendFile`, lines 437-534) -/

/-- Two's-complement wrap-around of a 64-bit signed integer (`int64`, and `int` on a 64-bit
platform). -/
def wrapInt64 (x : Int) : Int := (x + 2 ^ 63) % 2 ^ 64 - 2 ^ 63

/-- The process-wide counters of lines 25-28. -/
structure TransferStats where
  totalFilesSent : Int
  totalBytesSent : Int
  lastFileSentName : GoString
  lastFileSentTime : Int
deriving DecidableEq, Repr

/-- The result of `client.Do(req)`. -/
inductive HttpOutcome where
  /-- A non-nil error: no response was received. -/
  | transportError
  /-- A response with the given `StatusCode`. -/
  | response (statusCode : Int)
deriving DecidableEq, Repr

/-- The outcome of every call `sendFile` makes outside the program, in source order. -/
structure SendEnv where
  /-- Line 441: `os.Stat` reports that the file does not exist. -/
  statNotExist : Bool
  /-- Line 445: `os.Open` fails. -/
  openErr : Bool
  /-- Line 456: `writer.CreateFormFile` fails. -/
  createFormErr : Bool
  /-- Line 462: `io.Copy` fails. -/
  copyErr : Bool
  /-- Line 467: `writer.Close` fails. -/
  writerCloseErr : Bool
  /-- Line 484: `http.NewRequest` fails. -/
  newRequestErr : Bool
  /-- Line 494: the HTTP exchange. -/
  http : HttpOutcome
  /-- Line 510: the size reported by the second `os.Stat`, `none` when it fails. -/
  statSize : Option Int
  /-- Line 515: `time.Now()`. -/
  now : Int
  /-- Line 524: `file.Close` fails. -/
  fileCloseErr : Bool
  /-- The calls made by `moveToArchive`. -/
  archive : ArchiveEnv
deriving DecidableEq, Repr

/-- The errors `sendFile` returns. -/
inductive SendError where
  | fileDoesNotExist
  | openingFile
  | creatingForm
  | copyingFile
  | closingWriter
  | creatingRequest
  | sendingRequest
  | serverResponse (statusCode : Int)
  | closingFile
deriving DecidableEq, Repr

/-- What `sendFile` returns and leaves behind. -/
structure SendResult where
  /-- The returned error, `none` for `nil`. -/
  err : Option SendError
  stats : TransferStats
  /-- The outcome of the call of `moveToArchive`, `none` when it was not called.  With the
  outcome `neverReturns` the call of `sendFile` does not return either. -/
  move : Option MoveOutcome
  /-- The dated archive directory afterwards. -/
  destDir : Option (List GoString)
deriving DecidableEq, Repr

/-- The function `sendFile`, on the counters, the dated archive directory and the base
name of the file (`filepath.Base(filePath)`). -/
def sendFile (env : SendEnv) (stats : TransferStats) (destDir : Option (List GoString))
    (base : GoString) : SendResult :=
  let fail : SendError → SendResult := fun e =>
    { err := some e, stats := stats, move := none, destDir := destDir }
  if env.statNotExist then fail .fileDoesNotExist
  else if env.openErr then fail .openingFile
  else if env.createFormErr then fail .creatingForm
  else if env.copyErr then fail .copyingFile
  else if env.writerCloseErr then fail .closingWriter
  else if env.newRequestErr then fail .creatingRequest
  else
    match env.http with
    | .transportError => fail .sendingRequest
    | .response statusCode =>
      if statusCode != 200 then fail (.serverResponse statusCode)
      else
        let stats1 : TransferStats :=
          match env.statSize with
          | some size =>
            { totalFilesSent := wrapInt64 (stats.totalFilesSent + 1),
              totalBytesSent := wrapInt64 (stats.totalBytesSent + size),
              lastFileSentName := base,
              lastFileSentTime := env.now }
          | none => stats
        if env.fileCloseErr then
          { err := some .closingFile, stats := stats1, move := none, destDir := destDir }
        else
          let r := moveToArchive env.archive destDir base
          { err := none, stats := stats1, move := some r.1, destDir := r.2 }

/-! ## LogRotator (`rotateLogs` and its callers, lines 278-366)

The active log file is its content when it exists; the dated directory
`<logDir>/<date>/` maps entry names to contents. -/

/-- The log directory, as far as one rotation touches it. -/
structure LogFS where
  /-- The content of `<logDir>/<logFile>`, `none` when no such file exists. -/
  active : Option GoString
  /-- The entries of `<logDir>/<date>/`. -/
  dated : GoMap GoString
deriving DecidableEq, Repr

/-- The outcome of the calls of `rotateLogs` that may fail. -/
structure RotateEnv where
  /-- Line 315: `os.Rename` fails although the log file exists. -/
  renameErr : Bool
  /-- Line 337: the `tar` command fails. -/
  tarErr : Bool
  /-- The content of the archive a failing `tar` leaves behind, if it leaves one. -/
  tarPartial : Option GoString
  /-- Line 343: `os.Remove` of the uncompressed copy fails (the code ignores the result). -/
  removeErr : Bool
deriving DecidableEq, Repr

/-- How one call of `rotateLogs` ended. -/
inductive RotateOutcome where
  /-- Lines 316-319: the move failed. -/
  | moveFailed
  /-- The numbering loop did not finish within one iteration per entry plus one. -/
  | loopBudget
  /-- Lines 337-340: the compression into the named archive failed. -/
  | compressFailed (tarFileName : GoString)
  /-- The log was archived under sequence number `n`. -/
  | rotated (n : Nat) (tarFileName : GoString)
deriving DecidableEq, Repr

/-- Line 332: `fmt.Sprintf("%s-%d.tar.gz", baseTarFileName, n)`. -/
def tarName (baseTarFileName : GoString) (n : Nat) : GoString :=
  baseTarFileName ++ Char.toUInt8 '-' :: itoa n ++ bytes ".tar.gz"

/-- Lines 326-333: the numbering loop, on the names present in the dated directory.  Every
candidate is the ten-byte date followed by `-<n>.tar.gz`, far below any limit on the length
of a name, so `os.Stat` fails on a candidate only with a not-exist error, and exactly for
the names outside `existing`.  The first argument bounds the number of iterations; `none`
means the bound was reached. -/
def numberingLoop (existing : List GoString) (baseTarFileName : GoString) :
    Nat → Nat → GoString → Option (Nat × GoString)
  | 0, _, _ => none
  | fuel + 1, n, tarFileName =>
    if tarFileName ∈ existing then
      numberingLoop existing baseTarFileName fuel (n + 1) (tarName baseTarFileName (n + 1))
    else some (n, tarFileName)

/-- Lines 322-333: the archive name chosen among the names `existing`. -/
def pickTarName (existing : List GoString) (baseTarFileName : GoString) (fuel : Nat) :
    Option (Nat × GoString) :=
  numberingLoop existing baseTarFileName fuel 1 (baseTarFileName ++ (bytes "-1.tar.gz"))

/-- The function `rotateLogs` (lines 308-348); `date` is `logDate.Format("2006-01-02")`.
The result of `os.MkdirAll` is ignored by the code, and a rename of a missing log file
fails.  The archive is recorded with the content of the log it was made from.  The final
`setupLogging` finds no log file and creates an empty one. -/
def rotateLogs (logFile : GoString) (env : RotateEnv) (fs : LogFS) (date : GoString) :
    LogFS × RotateOutcome :=
  match fs.active with
  | none => (fs, .moveFailed)
  | some content =>
    if env.renameErr then (fs, .moveFailed)
    else
      let dated1 := mapSet fs.dated logFile content
      let existing := mapKeys dated1
      match pickTarName existing date (existing.length + 1) with
      | none => ({ active := none, dated := dated1 }, .loopBudget)
      | some (n, tarFileName) =>
        if env.tarErr then
          let dated2 :=
            match env.tarPartial with
            | some partialArchive => mapSet dated1 tarFileName partialArchive
            | none => dated1
          ({ active := none, dated := dated2 }, .compressFailed tarFileName)
        else
          let dated2 := mapSet dated1 tarFileName content
          let dated3 := if env.removeErr then dated2 else mapDelete dated2 logFile
          ({ active := some [], dated := dated3 }, .rotated n tarFileName)

/-- The constant `maxLogSize` (line 47). -/
def maxLogSize : Nat := 2 * 1024 * 1024

/-- The function `checkLogSizeAndRotate` (lines 278-284); `today` is the formatted
current date.  `fileInfo.Size()` is the number of bytes of the content. -/
def checkLogSizeAndRotate (logFile : GoString) (env : RotateEnv) (fs : LogFS)
    (today : GoString) : LogFS :=
  match fs.active with
  | none => fs
  | some content =>
    if content.length > maxLogSize then (rotateLogs logFile env fs today).1 else fs

/-- The constant `bufio.MaxScanTokenSize`. -/
def maxScanTokenSize : Nat := 64 * 1024

/-- The function `dropCR` of `bufio`: remove one trailing carriage return. -/
def dropCR (line : GoString) : GoString :=
  if line.getLast? = some (Char.toUInt8 '\r') then line.dropLast else line

/-- The tokens `bufio.Scanner` yields with `bufio.ScanLines`, and whether it stopped with
an error (a line of `maxScanTokenSize` bytes or more).  Arguments: the unread input, the
current line reversed, the tokens so far reversed. -/
def scanLoop : List UInt8 → List UInt8 → List GoString → List GoString × Bool
  | [], cur, toks =>
    if cur.isEmpty then (toks.reverse, false)
    else ((dropCR cur.reverse :: toks).reverse, false)
  | c :: rest, cur, toks =>
    if c == Char.toUInt8 '\n' then scanLoop rest [] (dropCR cur.reverse :: toks)
    else if cur.length + 1 ≥ maxScanTokenSize then (toks.reverse, true)
    else scanLoop rest (c :: cur) toks

/-- The function `readLastLines` (lines 350-366) on the content of the file, `none` when
it cannot be opened.  Returns the lines and whether the returned error is non-nil. -/
def readLastLines (file : Option GoString) (n : Nat) : List GoString × Bool :=
  match file with
  | none => ([], true)
  | some content =>
    let scanned := scanLoop content [] []
    let lines := scanned.1.foldl
      (fun lines text =>
        let lines := lines ++ [text]
        if lines.length > n then lines.drop 1 else lines)
      []
    (lines, scanned.2)

/-- A run-time panic of the Go program. -/
inductive Panic where
  /-- The message `slice bounds out of range [:hi] with length len`. -/
  | sliceBounds (hi len : Nat)
deriving DecidableEq, Repr

/-- The slice expression `s[:hi]` on a string: `hi` and the length count bytes. -/
def sliceTo (s : GoString) (hi : Nat) : Except Panic GoString :=
  if hi ≤ s.length then .ok (s.take hi) else .error (.sliceBounds hi s.length)

/-- The two library functions on times used by the date trigger: `time.Parse` with the
layout `2006/01/02 15:04:05` (`none` for an error) and `Format("2006-01-02")`. -/
structure TimeLib where
  parse : GoString → Option Int
  format : Int → GoString

/-- The function `checkLastRowAndRotateBeforeWrite` (lines 294-305); `midnight` is
`time.Now().Truncate(24*time.Hour)`. -/
def checkLastRowAndRotateBeforeWrite (lib : TimeLib) (logFile : GoString) (env : RotateEnv)
    (fs : LogFS) (midnight : Int) : Except Panic LogFS :=
  let r := readLastLines fs.active 2
  if !r.2 && r.1.length > 0 then
    let lastLine := r.1.getLastD []
    match sliceTo lastLine 19 with
    | .error p => .error p
    | .ok stamp =>
      match lib.parse stamp with
      | some logDate =>
        if logDate < midnight then .ok (rotateLogs logFile env fs (lib.format logDate)).1
        else .ok fs
      | none => .ok fs
  else .ok fs

/-! ## Concrete inputs used in the evaluations below -/

/-- The function `filepath.Join("send", ·)` on entry names. -/
def joinSend (name : GoString) : GoString := (bytes "send/") ++ name

/-- A source directory holding the single file `data.csv`. -/
def oneFileDir : List DirEntry :=
  [{ name := (bytes "data.csv"), isDir := false, modTime := 0 }]

/-- A file name of 255 bytes, the longest a usual filesystem accepts. -/
def longName : GoString := List.replicate 255 (Char.toUInt8 'a')

/-- The file `data.csv` as the poll at 0 s finds it: just created. -/
def firstLook : Observation :=
  { entry := { name := (bytes "data.csv"), isDir := false, modTime := 0 },
    seenAt := 0, checkedAt := 0 }

/-- The file `data.csv` as the poll at 3 s finds it: written to again at 2.5 s. -/
def secondLook : Observation :=
  { entry := { name := (bytes "data.csv"), isDir := false, modTime := 2500000000 },
    seenAt := 3000000000, checkedAt := 3000000000 }

/-- A log file whose last record is a two-line message: the response body logged by line 503
contains a line break. -/
def logWithBody : GoString :=
  bytes ("2024/01/02 10:00:00 Starting the file transfer program...\n" ++
    "2024/01/02 10:00:07 Error receiving response from the server: " ++
    "500 Internal Server Error - <html>\n</html>\n")

/-- An environment of `sendFile` in which every call succeeds and the server answers with
the given status code. -/
def serverAnswers (statusCode : Int) : SendEnv :=
  { statNotExist := false, openErr := false, createFormErr := false, copyErr := false,
    writerCloseErr := false, newRequestErr := false, http := .response statusCode,
    statSize := some 10240, now := 0, fileCloseErr := false,
    archive := { mkdirErr := false, renameErr := false, nameMax := 255 } }

/-! ## Measures used in the termination proofs -/

/-- Number of entries at least as long as `len`: the measure of the collision loop. -/
def longEntries (existing : List GoString) (len : Nat) : Nat :=
  existing.countP (fun x => decide (len ≤ x.length))

/-- The value of a decimal digit character. -/
def digitValue (c : UInt8) : Nat := c.toNat - 48

/-- The number written by a string of decimal digits. -/
def parseDecimal (s : GoString) : Nat := s.foldl (fun acc c => acc * 10 + digitValue c) 0

/-! ### Facts about the string functions -/

theorem extScan_suffix (path : GoString) :
    ∀ (r acc : List UInt8), r.reverse ++ acc = path → extScan r acc <:+ path := by
  intro r
  induction r with
  | nil => intro acc _; exact List.nil_suffix
  | cons c rest ih =>
    intro acc h
    unfold extScan
    split
    · exact List.nil_suffix
    · split
      · refine ⟨rest.reverse, ?_⟩
        rw [← h]; simp
      · apply ih
        rw [← h]; simp

theorem Ext_suffix (path : GoString) : Ext path <:+ path :=
  extScan_suffix path path.reverse [] (by simp)

theorem TrimSuffix_append (s suffix : GoString) (h : suffix <:+ s) :
    TrimSuffix s suffix ++ suffix = s := by
  obtain ⟨t, rfl⟩ := h
  have hs : suffix.isSuffixOf (t ++ suffix) = true := by
    rw [List.isSuffixOf_iff_suffix]; exact List.suffix_append _ _
  simp [TrimSuffix, hs]

theorem nextDest_length (destPath : GoString) (counter : Nat) :
    destPath.length < (nextDest destPath counter).length := by
  have h := TrimSuffix_append destPath (Ext destPath) (Ext_suffix destPath)
  have hl : (TrimSuffix destPath (Ext destPath)).length + (Ext destPath).length
      = destPath.length := by
    rw [← List.length_append, h]
  simp only [nextDest, List.length_append, List.length_cons]
  omega

theorem longEntries_le (existing : List GoString) (len : Nat) :
    longEntries existing len ≤ existing.length :=
  List.countP_le_length _

theorem longEntries_lt (existing : List GoString) (cur : GoString) (len : Nat)
    (hmem : cur ∈ existing) (hlen : cur.length < len) :
    longEntries existing len < longEntries existing cur.length := by
  induction existing with
  | nil => cases hmem
  | cons x xs ih =>
    have hmono : longEntries xs len ≤ longEntries xs cur.length := by
      unfold longEntries
      apply List.countP_mono_left
      intro y _ hy
      simp only [decide_eq_true_eq] at hy ⊢
      omega
    simp only [longEntries, List.countP_cons] at ih hmono ⊢
    rcases List.mem_cons.mp hmem with h | h
    · subst h
      have h1 : decide (len ≤ cur.length) = false := by simp; omega
      have h2 : decide (cur.length ≤ cur.length) = true := by simp
      simp only [h1, h2]
      simp
      omega
    · have := ih h
      by_cases hx1 : len ≤ x.length
      · have hx2 : cur.length ≤ x.length := by omega
        simp [hx1, hx2]; omega
      · by_cases hx2 : cur.length ≤ x.length
        · simp [hx1, hx2]; omega
        · simp [hx1, hx2]; omega

theorem dirStat_notExist (nameMax : Nat) (existing : List GoString) (name : GoString) :
    dirStat nameMax existing name = StatResult.notExist ↔
      name.length ≤ nameMax ∧ name ∉ existing := by
  unfold dirStat
  by_cases hlong : nameMax < name.length
  · simp [hlong]
  · by_cases hmem : name ∈ existing
    · simp [hlong, hmem]
    · simp [hlong, hmem]
      omega

/-- Whatever the loop returns is a name of admissible length that is not in the
directory. -/
theorem collisionLoop_free (nameMax : Nat) (existing : List GoString) :
    ∀ (fuel : Nat) (destPath : GoString) (counter : Nat) (dest : GoString),
      collisionLoop (dirStat nameMax existing) fuel destPath counter = some dest →
      dest.length ≤ nameMax ∧ dest ∉ existing := by
  intro fuel
  induction fuel with
  | zero => intro _ _ _ h; simp [collisionLoop] at h
  | succ fuel ih =>
    intro destPath counter dest h
    unfold collisionLoop at h
    by_cases hstat : dirStat nameMax existing destPath = StatResult.notExist
    · rw [if_pos hstat] at h
      have hd : destPath = dest := by simpa using h
      rw [← hd]
      exact (dirStat_notExist nameMax existing destPath).mp hstat
    · rw [if_neg hstat] at h
      exact ih _ _ _ h

/-- Once a candidate is longer than the filesystem accepts, the loop is never left. -/
theorem collisionLoop_diverges (nameMax : Nat) (existing : List GoString) :
    ∀ (fuel : Nat) (destPath : GoString) (counter : Nat),
      nameMax < destPath.length →
      collisionLoop (dirStat nameMax existing) fuel destPath counter = none := by
  intro fuel
  induction fuel with
  | zero => intro _ _ _; rfl
  | succ fuel ih =>
    intro destPath counter hlong
    unfold collisionLoop
    have hstat : dirStat nameMax existing destPath ≠ StatResult.notExist := by
      intro h
      have := ((dirStat_notExist nameMax existing destPath).mp h).1
      omega
    rw [if_neg hstat]
    apply ih
    have := nextDest_length destPath counter
    omega

/-- If the loop is ever left, it is left within one iteration per entry at least as long as
the first candidate, plus one. -/
theorem collisionLoop_budget (nameMax : Nat) (existing : List GoString) :
    ∀ (fuel : Nat) (destPath : GoString) (counter : Nat) (dest : GoString),
      collisionLoop (dirStat nameMax existing) fuel destPath counter = some dest →
      ∀ fuel2, longEntries existing destPath.length < fuel2 →
        collisionLoop (dirStat nameMax existing) fuel2 destPath counter = some dest := by
  intro fuel
  induction fuel with
  | zero => intro _ _ _ h; simp [collisionLoop] at h
  | succ fuel ih =>
    intro destPath counter dest h fuel2 hfuel2
    obtain ⟨k, rfl⟩ : ∃ k, fuel2 = k + 1 := ⟨fuel2 - 1, by omega⟩
    unfold collisionLoop at h ⊢
    by_cases hstat : dirStat nameMax existing destPath = StatResult.notExist
    · rw [if_pos hstat] at h ⊢
      exact h
    · rw [if_neg hstat] at h ⊢
      by_cases hlong : nameMax < destPath.length
      · have hnext : nameMax < (nextDest destPath counter).length := by
          have := nextDest_length destPath counter
          omega
        rw [collisionLoop_diverges nameMax existing fuel _ _ hnext] at h
        cases h
      · have hmem : destPath ∈ existing := by
          by_contra hno
          exact hstat ((dirStat_notExist nameMax existing destPath).mpr ⟨by omega, hno⟩)
        have := longEntries_lt existing destPath _ hmem (nextDest_length destPath counter)
        exact ih _ _ _ h k (by omega)

/-- When the first `k` candidates are all present and the next one is longer than the
filesystem accepts, the loop is never left. -/
theorem collisionLoop_diverges_after (nameMax : Nat) (existing : List GoString) :
    ∀ (k : Nat) (destPath : GoString) (counter : Nat),
      (∀ x ∈ candidates k destPath counter, x ∈ existing) →
      nameMax < (candidateAt k destPath counter).length →
      ∀ fuel, collisionLoop (dirStat nameMax existing) fuel destPath counter = none := by
  intro k
  induction k with
  | zero =>
    intro destPath counter _ hlong fuel
    exact collisionLoop_diverges nameMax existing fuel destPath counter hlong
  | succ k ih =>
    intro destPath counter hall hlong fuel
    cases fuel with
    | zero => rfl
    | succ fuel =>
      unfold collisionLoop
      have hmem : destPath ∈ existing := hall destPath (by simp [candidates])
      have hstat : dirStat nameMax existing destPath ≠ StatResult.notExist := by
        intro h
        exact ((dirStat_notExist nameMax existing destPath).mp h).2 hmem
      rw [if_neg hstat]
      apply ih (nextDest destPath counter) (counter + 1) _ hlong fuel
      intro x hx
      exact hall x (by simp [candidates, hx])

theorem candidates_length :
    ∀ (k : Nat) (destPath : GoString) (counter : Nat),
      (candidates k destPath counter).length = k := by
  intro k
  induction k with
  | zero => intro _ _; rfl
  | succ k ih => intro destPath counter; simp [candidates, ih]

theorem candidateAt_length_le :
    ∀ (k : Nat) (destPath : GoString) (counter : Nat),
      destPath.length ≤ (candidateAt k destPath counter).length := by
  intro k
  induction k with
  | zero => intro _ _; exact le_refl _
  | succ k ih =>
    intro destPath counter
    have h1 := nextDest_length destPath counter
    have h2 := ih (nextDest destPath counter) (counter + 1)
    simp only [candidateAt]
    omega

theorem candidates_shorter :
    ∀ (k : Nat) (destPath : GoString) (counter : Nat),
      ∀ x ∈ candidates k destPath counter,
        x.length < (candidateAt k destPath counter).length := by
  intro k
  induction k with
  | zero => intro _ _ x hx; simp [candidates] at hx
  | succ k ih =>
    intro destPath counter x hx
    simp only [candidates, List.mem_cons] at hx
    simp only [candidateAt]
    rcases hx with h | h
    · have h1 := nextDest_length destPath counter
      have h2 := candidateAt_length_le k (nextDest destPath counter) (counter + 1)
      rw [h]
      omega
    · exact ih _ _ x h

/-- When the first `k` candidates are present and the next one is free and of admissible
length, the loop returns that one. -/
theorem collisionLoop_walks (nameMax : Nat) (existing : List GoString) :
    ∀ (k : Nat) (destPath : GoString) (counter : Nat),
      (∀ x ∈ candidates k destPath counter, x ∈ existing) →
      candidateAt k destPath counter ∉ existing →
      (candidateAt k destPath counter).length ≤ nameMax →
      ∀ fuel, k < fuel →
        collisionLoop (dirStat nameMax existing) fuel destPath counter
          = some (candidateAt k destPath counter) := by
  intro k
  induction k with
  | zero =>
    intro destPath counter _ hfree hfits fuel hfuel
    obtain ⟨f, rfl⟩ : ∃ f, fuel = f + 1 := ⟨fuel - 1, by omega⟩
    unfold collisionLoop
    rw [if_pos ((dirStat_notExist nameMax existing destPath).mpr ⟨hfits, hfree⟩)]
    rfl
  | succ k ih =>
    intro destPath counter hall hfree hfits fuel hfuel
    obtain ⟨f, rfl⟩ : ∃ f, fuel = f + 1 := ⟨fuel - 1, by omega⟩
    unfold collisionLoop
    have hmem : destPath ∈ existing := hall destPath (by simp [candidates])
    have hstat : dirStat nameMax existing destPath ≠ StatResult.notExist := by
      intro h
      exact ((dirStat_notExist nameMax existing destPath).mp h).2 hmem
    rw [if_neg hstat]
    exact ih (nextDest destPath counter) (counter + 1)
      (fun x hx => hall x (by simp [candidates, hx])) hfree hfits f (by omega)

/-- The directory `candidates k base 1` is what `k` files called `base` leave behind: as
long as the next candidate is of admissible length, the next such file is archived under
it. -/
theorem moveToArchive_walks (env : ArchiveEnv) (k : Nat) (base : GoString)
    (hrename : env.renameErr = false)
    (hfits : (candidateAt k base 1).length ≤ env.nameMax) :
    moveToArchive env (some (candidates k base 1)) base
      = (MoveOutcome.moved (candidateAt k base 1),
          some (candidateAt k base 1 :: candidates k base 1)) := by
  have hfree : candidateAt k base 1 ∉ candidates k base 1 := by
    intro h
    have := candidates_shorter k base 1 _ h
    omega
  have hloop := collisionLoop_walks env.nameMax (candidates k base 1) k base 1
    (fun x hx => hx) hfree hfits ((candidates k base 1).length + 1)
    (by rw [candidates_length]; omega)
  simp [moveToArchive, hloop, hrename]

/-- The outcome `neverReturns` of `moveToArchive` is exact: the loop is then left for no
bound on the number of its iterations. -/
theorem moveToArchive_neverReturns (env : ArchiveEnv) (existing : List GoString)
    (base : GoString)
    (h : (moveToArchive env (some existing) base).1 = MoveOutcome.neverReturns) :
    ∀ fuel, collisionLoop (dirStat env.nameMax existing) fuel base 1 = none := by
  intro fuel
  cases hf : collisionLoop (dirStat env.nameMax existing) fuel base 1 with
  | none => rfl
  | some dest =>
    have hb := collisionLoop_budget env.nameMax existing fuel base 1 dest hf
      (existing.length + 1) (Nat.lt_succ_of_le (longEntries_le existing base.length))
    simp only [moveToArchive, Option.isNone_some, Bool.false_and, Bool.false_eq_true,
      if_false, Option.getD_some, hb] at h
    split_ifs at h

/-- When the loop is never left, `moveToArchive` has the outcome `neverReturns`. -/
theorem moveToArchive_of_diverges (env : ArchiveEnv) (existing : List GoString)
    (base : GoString)
    (h : ∀ fuel, collisionLoop (dirStat env.nameMax existing) fuel base 1 = none) :
    moveToArchive env (some existing) base = (MoveOutcome.neverReturns, some existing) := by
  simp [moveToArchive, h]

/-- A file that `moveToArchive` moves gets a name that was not in the directory. -/
theorem moveToArchive_moved_free (env : ArchiveEnv) (existing : List GoString)
    (base dest : GoString)
    (h : (moveToArchive env (some existing) base).1 = MoveOutcome.moved dest) :
    dest ∉ existing ∧
      (moveToArchive env (some existing) base).2 = some (dest :: existing) := by
  cases hf : collisionLoop (dirStat env.nameMax existing) (existing.length + 1) base 1 with
  | none =>
    simp [moveToArchive, hf] at h
  | some d =>
    have hfree := (collisionLoop_free env.nameMax existing _ base 1 d hf).2
    simp only [moveToArchive, Option.isNone_some, Bool.false_and, Bool.false_eq_true,
      if_false, Option.getD_some, hf] at h ⊢
    by_cases hr : env.renameErr = true
    · simp [hr] at h
    · simp only [hr, if_false] at h ⊢
      have hd : d = dest := by simpa using h
      rw [← hd]
      exact ⟨hfree, rfl⟩

/-! ### Decimal formatting is injective -/

theorem digitValue_digitByte (d : Nat) (h : d < 10) : digitValue (digitByte d) = d := by
  interval_cases d <;> rfl

theorem parseDecimal_snoc (s : GoString) (c : UInt8) :
    parseDecimal (s ++ [c]) = parseDecimal s * 10 + digitValue c := by
  simp [parseDecimal, List.foldl_append]

theorem parseDecimal_decimal :
    ∀ (fuel n : Nat), n < fuel → parseDecimal (decimal fuel n) = n := by
  intro fuel
  induction fuel with
  | zero => intro n h; omega
  | succ fuel ih =>
    intro n h
    unfold decimal
    by_cases hn : n < 10
    · rw [if_pos hn]
      simp [parseDecimal, digitValue_digitByte n hn]
    · rw [if_neg hn, parseDecimal_snoc, ih (n / 10) (by omega),
        digitValue_digitByte (n % 10) (Nat.mod_lt _ (by omega))]
      omega

theorem itoa_injective : Function.Injective itoa := by
  intro a b h
  have ha := parseDecimal_decimal (a + 1) a (by omega)
  have hb := parseDecimal_decimal (b + 1) b (by omega)
  unfold itoa at h
  rw [h] at ha
  omega

theorem tarName_injective (date : GoString) : Function.Injective (tarName date) := by
  intro a b h
  unfold tarName at h
  have h1 := List.append_cancel_left (List.append_cancel_right h)
  exact itoa_injective (List.cons.inj h1).2

theorem tarName_one (date : GoString) : date ++ (bytes "-1.tar.gz") = tarName date 1 := by
  simp [tarName, itoa, decimal]
  decide

/-! ### The numbering loop -/

theorem numbered_prefix_le (existing : List GoString) (date : GoString) (n : Nat)
    (h : ∀ m, 1 ≤ m → m < n → tarName date m ∈ existing) : n - 1 ≤ existing.length := by
  have hnodup : ((List.range' 1 (n - 1)).map (tarName date)).Nodup :=
    (List.nodup_range' 1 (n - 1)).map (tarName_injective date)
  have hsub : (List.range' 1 (n - 1)).map (tarName date) ⊆ existing := by
    intro x hx
    obtain ⟨m, hm, rfl⟩ := List.mem_map.mp hx
    rw [List.mem_range'_1] at hm
    exact h m hm.1 (by omega)
  have := (hnodup.subperm hsub).length_le
  simpa using this

theorem numberingLoop_spec (existing : List GoString) (date : GoString) :
    ∀ (fuel n : Nat), 1 ≤ n → existing.length < fuel + (n - 1) →
      (∀ m, 1 ≤ m → m < n → tarName date m ∈ existing) →
      ∃ k, n ≤ k ∧ tarName date k ∉ existing ∧
        (∀ m, 1 ≤ m → m < k → tarName date m ∈ existing) ∧
        numberingLoop existing date fuel n (tarName date n) = some (k, tarName date k) := by
  intro fuel
  induction fuel with
  | zero =>
    intro n _ hlen hpre
    have := numbered_prefix_le existing date n hpre
    omega
  | succ fuel ih =>
    intro n hn hlen hpre
    unfold numberingLoop
    by_cases hmem : tarName date n ∈ existing
    · rw [if_pos hmem]
      have hpre2 : ∀ m, 1 ≤ m → m < n + 1 → tarName date m ∈ existing := by
        intro m h1 h2
        by_cases hm : m = n
        · subst hm; exact hmem
        · exact hpre m h1 (by omega)
      obtain ⟨k, hk, hfree, hall, hres⟩ := ih (n + 1) (by omega) (by omega) hpre2
      exact ⟨k, by omega, hfree, hall, hres⟩
    · rw [if_neg hmem]
      exact ⟨n, le_refl n, hmem, hpre, rfl⟩

theorem pickTarName_spec (existing : List GoString) (date : GoString) :
    ∃ n, 1 ≤ n ∧ tarName date n ∉ existing ∧
      (∀ m, 1 ≤ m → m < n → tarName date m ∈ existing) ∧
      (∀ fuel, existing.length < fuel →
        pickTarName existing date fuel = some (n, tarName date n)) := by
  obtain ⟨n, hn, hfree, hall, _⟩ :=
    numberingLoop_spec existing date (existing.length + 1) 1 (le_refl 1) (by omega)
      (by intro m h1 h2; omega)
  refine ⟨n, hn, hfree, hall, ?_⟩
  intro fuel hfuel
  obtain ⟨k, _, hkfree, hkall, hres⟩ :=
    numberingLoop_spec existing date fuel 1 (le_refl 1) (by omega)
      (by intro m h1 h2; omega)
  have hkn : k = n := by
    rcases Nat.lt_trichotomy k n with h | h | h
    · exact absurd (hall k (by omega) h) hkfree
    · exact h
    · exact absurd (hkall n hn h) hfree
  subst hkn
  unfold pickTarName
  rw [tarName_one]
  exact hres

/-! ### Go maps -/

theorem mapGet_mapDelete_self {β : Type} (m : GoMap β) (k : GoString) :
    mapGet (mapDelete m k) k = none := by
  induction m with
  | nil => rfl
  | cons e m ih =>
    by_cases h : e.1 = k
    · have : mapDelete (e :: m) k = mapDelete m k := by simp [mapDelete, h]
      rw [this]; exact ih
    · have hd : mapDelete (e :: m) k = e :: mapDelete m k := by simp [mapDelete, h]
      have hk : (k == e.1) = false := by
        simp only [beq_eq_false_iff_ne, ne_eq]; exact fun hh => h hh.symm
      rw [hd]
      obtain ⟨a, b⟩ := e
      simp only [mapGet, List.lookup] at ih ⊢
      simp only at hk
      rw [hk]; exact ih

theorem mapGet_mapDelete_ne {β : Type} (m : GoMap β) (k p : GoString) (hne : p ≠ k) :
    mapGet (mapDelete m k) p = mapGet m p := by
  induction m with
  | nil => rfl
  | cons e m ih =>
    obtain ⟨a, b⟩ := e
    by_cases h : a = k
    · have hd : mapDelete ((a, b) :: m) k = mapDelete m k := by simp [mapDelete, h]
      have hp : (p == a) = false := by
        simp only [beq_eq_false_iff_ne, ne_eq]; rw [h]; exact hne
      rw [hd, ih]
      simp only [mapGet, List.lookup, hp]
    · have hd : mapDelete ((a, b) :: m) k = (a, b) :: mapDelete m k := by simp [mapDelete, h]
      rw [hd]
      simp only [mapGet, List.lookup] at ih ⊢
      rw [ih]

theorem mapGet_mapSet_self {β : Type} (m : GoMap β) (k : GoString) (v : β) :
    mapGet (mapSet m k v) k = some v := by
  simp [mapGet, mapSet, List.lookup]

theorem mapGet_mapSet_ne {β : Type} (m : GoMap β) (k p : GoString) (v : β) (hne : p ≠ k) :
    mapGet (mapSet m k v) p = mapGet m p := by
  have hp : (p == k) = false := by simpa using hne
  have := mapGet_mapDelete_ne m k p hne
  simp only [mapGet, mapSet, List.lookup, hp] at this ⊢
  exact this

theorem mem_mapKeys_iff {β : Type} (m : GoMap β) (p : GoString) :
    p ∈ mapKeys m ↔ mapGet m p ≠ none := by
  induction m with
  | nil => simp [mapKeys, mapGet]
  | cons e m ih =>
    obtain ⟨a, b⟩ := e
    by_cases h : p = a
    · subst h
      have h1 : mapGet ((p, b) :: m) p = some b := by
        simp only [mapGet, List.lookup, beq_self_eq_true]
      have h2 : p ∈ mapKeys ((p, b) :: m) := by
        simp only [mapKeys, List.map_cons, List.mem_cons, true_or]
      rw [h1]
      exact ⟨fun _ => Option.some_ne_none b, fun _ => h2⟩
    · have hp : (p == a) = false := by simpa using h
      simp only [mapKeys, List.map_cons, List.mem_cons, h, false_or, mapGet, List.lookup, hp]
      exact ih

theorem mem_mapKeys_mapSet {β : Type} (m : GoMap β) (k p : GoString) (v : β) :
    p ∈ mapKeys (mapSet m k v) ↔ p = k ∨ p ∈ mapKeys m := by
  rw [mem_mapKeys_iff, mem_mapKeys_iff]
  by_cases h : p = k
  · subst h
    rw [mapGet_mapSet_self]
    simp
  · rw [mapGet_mapSet_ne m k p v h]
    simp [h]

theorem mapGet_foldl_delete (currentFiles : List GoString) (p : GoString) :
    ∀ (keys : List GoString) (m : GoMap Int),
      mapGet (keys.foldl
        (fun m filePath => if !currentFiles.contains filePath then mapDelete m filePath else m)
        m) p
      = if p ∈ keys ∧ p ∉ currentFiles then none else mapGet m p := by
  intro keys
  induction keys with
  | nil => intro m; simp
  | cons k keys ih =>
    intro m
    rw [List.foldl_cons, ih]
    by_cases hk : k ∈ currentFiles
    · have hc : currentFiles.contains k = true := by simpa using hk
      simp only [hc, Bool.not_true, Bool.false_eq_true, if_false, List.mem_cons]
      by_cases hp : p = k
      · subst hp; simp [hk]
      · simp [hp]
    · have hc : currentFiles.contains k = false := by simpa using hk
      simp only [hc, Bool.not_false, if_true, List.mem_cons]
      by_cases hp : p = k
      · subst hp
        simp [hk, mapGet_mapDelete_self]
      · simp only [hp, false_or, mapGet_mapDelete_ne m k p hp]

theorem mapGet_forget (currentFiles : List GoString) (m : GoMap Int) (p : GoString) :
    mapGet (forget currentFiles m) p = if p ∈ currentFiles then mapGet m p else none := by
  unfold forget
  rw [mapGet_foldl_delete]
  by_cases hc : p ∈ currentFiles
  · simp [hc]
  · by_cases hk : p ∈ mapKeys m
    · simp [hc, hk]
    · have : mapGet m p = none := by
        by_contra h
        exact hk ((mem_mapKeys_iff m p).mpr h)
      simp [hc, hk, this]

/-! ### The watcher -/

theorem isFileUnchanged_iff (m : GoMap Int) (p : GoString) (now : Int) :
    isFileUnchanged m p now = true ↔ ∃ t, mapGet m p = some t ∧ now - t > 2 * Second := by
  unfold isFileUnchanged
  cases h : mapGet m p with
  | none => simp
  | some t => simp

theorem visit_dir (join : GoString → GoString) (st : WatchState) (o : Observation)
    (h : o.entry.isDir = true) : visit join st o = st := by
  simp [visit, h]

theorem visit_fileFirstSeen (join : GoString → GoString) (st : WatchState) (o : Observation)
    (h : o.entry.isDir = false) :
    (visit join st o).fileFirstSeen =
      if (mapGet st.fileFirstSeen (join o.entry.name)).isNone then
        mapSet st.fileFirstSeen (join o.entry.name) o.seenAt
      else st.fileFirstSeen := by
  simp only [visit, h, Bool.not_false, if_true]
  split_ifs <;> rfl

theorem visit_currentFiles (join : GoString → GoString) (st : WatchState) (o : Observation)
    (h : o.entry.isDir = false) :
    (visit join st o).currentFiles = join o.entry.name :: st.currentFiles := by
  simp only [visit, h, Bool.not_false, if_true]
  split_ifs <;> rfl

theorem visit_pushed (join : GoString → GoString) (st : WatchState) (o : Observation)
    (h : o.entry.isDir = false) :
    (visit join st o).pushed =
      if isFileUnchanged (visit join st o).fileFirstSeen (join o.entry.name) o.checkedAt then
        st.pushed ++ [join o.entry.name]
      else st.pushed := by
  rw [visit_fileFirstSeen join st o h]
  simp only [visit, h, Bool.not_false, if_true]
  split_ifs <;> rfl

theorem visit_keeps (join : GoString → GoString) (st : WatchState) (o : Observation)
    (p : GoString) (t : Int) (h : mapGet st.fileFirstSeen p = some t) :
    mapGet (visit join st o).fileFirstSeen p = some t := by
  cases hd : o.entry.isDir with
  | true => rw [visit_dir join st o hd]; exact h
  | false =>
    rw [visit_fileFirstSeen join st o hd]
    by_cases hnone : (mapGet st.fileFirstSeen (join o.entry.name)).isNone = true
    · rw [if_pos hnone]
      have hne : p ≠ join o.entry.name := by
        intro heq
        rw [← heq, h] at hnone
        simp at hnone
      rw [mapGet_mapSet_ne _ _ _ _ hne]
      exact h
    · rw [if_neg hnone]
      exact h

theorem visit_tracks (join : GoString → GoString) (st : WatchState) (o : Observation)
    (h : o.entry.isDir = false) :
    mapGet (visit join st o).fileFirstSeen (join o.entry.name) ≠ none := by
  rw [visit_fileFirstSeen join st o h]
  by_cases hnone : (mapGet st.fileFirstSeen (join o.entry.name)).isNone = true
  · rw [if_pos hnone, mapGet_mapSet_self]
    exact Option.some_ne_none _
  · rw [if_neg hnone]
    intro hh
    rw [hh] at hnone
    exact hnone rfl

theorem visitAll_snoc (join : GoString → GoString) (m : GoMap Int)
    (init : List Observation) (o : Observation) :
    visitAll join m (init ++ [o]) = visit join (visitAll join m init) o := by
  simp [visitAll, List.foldl_append]

theorem listedPaths_snoc (join : GoString → GoString) (init : List Observation)
    (o : Observation) :
    listedPaths join (init ++ [o]) =
      listedPaths join init ++ (if o.entry.isDir = false then [join o.entry.name] else []) := by
  cases h : o.entry.isDir <;> simp [listedPaths, List.filter_append, h]

theorem visitAll_currentFiles (join : GoString → GoString) (m : GoMap Int)
    (files : List Observation) (q : GoString) :
    q ∈ (visitAll join m files).currentFiles ↔ q ∈ listedPaths join files := by
  induction files using List.reverseRecOn with
  | nil => simp [visitAll, listedPaths]
  | append_singleton init o ih =>
    rw [visitAll_snoc, listedPaths_snoc]
    cases hd : o.entry.isDir with
    | true => rw [visit_dir join _ o hd]; simpa using ih
    | false =>
      rw [visit_currentFiles join _ o hd]
      simp only [List.mem_cons, ih, if_true, List.mem_append, List.mem_singleton]
      tauto

theorem visitAll_keeps (join : GoString → GoString) (m : GoMap Int)
    (files : List Observation) (p : GoString) (t : Int) (h : mapGet m p = some t) :
    mapGet (visitAll join m files).fileFirstSeen p = some t := by
  induction files using List.reverseRecOn with
  | nil => simpa [visitAll] using h
  | append_singleton init o ih =>
    rw [visitAll_snoc]
    exact visit_keeps join _ o p t ih

theorem visitAll_tracks (join : GoString → GoString) (m : GoMap Int)
    (files : List Observation) (q : GoString)
    (hq : q ∈ (visitAll join m files).currentFiles) :
    mapGet (visitAll join m files).fileFirstSeen q ≠ none := by
  induction files using List.reverseRecOn with
  | nil => simp [visitAll] at hq
  | append_singleton init o ih =>
    rw [visitAll_snoc] at hq ⊢
    cases hd : o.entry.isDir with
    | true =>
      rw [visit_dir join _ o hd] at hq ⊢
      exact ih hq
    | false =>
      rw [visit_currentFiles join _ o hd] at hq
      rcases List.mem_cons.mp hq with heq | hmem
      · rw [heq]; exact visit_tracks join _ o hd
      · have := ih hmem
        cases hg : mapGet (visitAll join m init).fileFirstSeen q with
        | none => exact absurd hg this
        | some t =>
          rw [visit_keeps join _ o q t hg]
          exact Option.some_ne_none t

theorem visitAll_pushed_ready (join : GoString → GoString) (m : GoMap Int)
    (files : List Observation) (p : GoString)
    (hp : p ∈ (visitAll join m files).pushed) :
    ∃ o ∈ files, o.entry.isDir = false ∧ join o.entry.name = p ∧
      ∃ t, mapGet (visitAll join m files).fileFirstSeen p = some t ∧
        o.checkedAt - t > 2 * Second := by
  induction files using List.reverseRecOn with
  | nil => simp [visitAll] at hp
  | append_singleton init o ih =>
    rw [visitAll_snoc] at hp ⊢
    have hold : p ∈ (visitAll join m init).pushed →
        ∃ o2 ∈ init ++ [o], o2.entry.isDir = false ∧ join o2.entry.name = p ∧
          ∃ t, mapGet (visit join (visitAll join m init) o).fileFirstSeen p = some t ∧
            o2.checkedAt - t > 2 * Second := by
      intro h
      obtain ⟨o2, ho2, hd2, hj2, t, ht, hgt⟩ := ih h
      exact ⟨o2, List.mem_append_left _ ho2, hd2, hj2, t, visit_keeps join _ o p t ht, hgt⟩
    cases hd : o.entry.isDir with
    | true =>
      rw [visit_dir join _ o hd] at hp
      exact hold hp
    | false =>
      rw [visit_pushed join _ o hd] at hp
      by_cases hready :
          isFileUnchanged (visit join (visitAll join m init) o).fileFirstSeen
            (join o.entry.name) o.checkedAt = true
      · rw [if_pos hready] at hp
        rcases List.mem_append.mp hp with h | h
        · exact hold h
        · have hpe : p = join o.entry.name := by simpa using h
          obtain ⟨t, ht, hgt⟩ := (isFileUnchanged_iff _ _ _).mp hready
          exact ⟨o, by simp, hd, hpe.symm, t, by rw [hpe]; exact ht, hgt⟩
      · rw [if_neg hready] at hp
        exact hold hp

theorem visitAll_pushed_sublist (join : GoString → GoString) (m : GoMap Int)
    (files : List Observation) :
    List.Sublist (visitAll join m files).pushed (listedPaths join files) := by
  induction files using List.reverseRecOn with
  | nil => simp [visitAll, listedPaths]
  | append_singleton init o ih =>
    rw [visitAll_snoc, listedPaths_snoc]
    cases hd : o.entry.isDir with
    | true =>
      rw [visit_dir join _ o hd]
      simpa using ih
    | false =>
      rw [visit_pushed join _ o hd]
      simp only [if_true]
      split
      · exact List.Sublist.append ih (List.Sublist.refl _)
      · exact List.Sublist.trans ih (List.sublist_append_left _ _)

theorem visitAll_pushes_ready (join : GoString → GoString) (m : GoMap Int)
    (files : List Observation) (o : Observation) (t : Int) (ho : o ∈ files)
    (hd : o.entry.isDir = false) (ht : mapGet m (join o.entry.name) = some t)
    (hgt : o.checkedAt - t > 2 * Second) :
    join o.entry.name ∈ (visitAll join m files).pushed := by
  induction files using List.reverseRecOn with
  | nil => cases ho
  | append_singleton init o2 ih =>
    rw [visitAll_snoc]
    rcases List.mem_append.mp ho with h | h
    · have hin := ih h
      cases hd2 : o2.entry.isDir with
      | true => rw [visit_dir join _ o2 hd2]; exact hin
      | false =>
        rw [visit_pushed join _ o2 hd2]
        split
        · exact List.mem_append_left _ hin
        · exact hin
    · have ho2 : o = o2 := by simpa using h
      subst ho2
      rw [visit_pushed join _ o hd]
      have hkeep := visit_keeps join (visitAll join m init) o _ t
        (visitAll_keeps join m init _ t ht)
      have hready : isFileUnchanged (visit join (visitAll join m init) o).fileFirstSeen
          (join o.entry.name) o.checkedAt = true :=
        (isFileUnchanged_iff _ _ _).mpr ⟨t, hkeep, hgt⟩
      rw [if_pos hready]
      simp

/-- Every path pushed by a poll is the path of a non-directory entry of the listing whose
first-seen time lies more than 2 seconds before the clock reading of its readiness check. -/
theorem pollOnce_pushed_after_window (join : GoString → GoString) (m : GoMap Int)
    (files : List Observation) (p : GoString)
    (hp : p ∈ (pollOnce join m (some files)).pushed) :
    ∃ o ∈ files, o.entry.isDir = false ∧ join o.entry.name = p ∧
      ∃ t, mapGet (pollOnce join m (some files)).fileFirstSeen p = some t ∧
        o.checkedAt - t > 2 * Second := by
  simp only [pollOnce] at hp ⊢
  obtain ⟨o, ho, hd, hj, t, ht, hgt⟩ := visitAll_pushed_ready join m files p hp
  refine ⟨o, ho, hd, hj, t, ?_, hgt⟩
  have hcur : p ∈ (visitAll join m files).currentFiles := by
    rw [visitAll_currentFiles]
    simp only [listedPaths, List.mem_map, List.mem_filter]
    exact ⟨o, ⟨ho, by simp [hd]⟩, hj⟩
  rw [mapGet_forget, if_pos hcur]
  exact ht

theorem pollOnce_pushed (join : GoString → GoString) (m : GoMap Int)
    (files : List Observation) (hnodup : (listedPaths join files).Nodup) :
    (pollOnce join m (some files)).pushed.Nodup ∧
    (∀ p ∈ (pollOnce join m (some files)).pushed, p ∈ listedPaths join files) ∧
    (∀ o ∈ files, o.entry.isDir = false →
      ∀ t, mapGet m (join o.entry.name) = some t → o.checkedAt - t > 2 * Second →
        join o.entry.name ∈ (pollOnce join m (some files)).pushed) := by
  simp only [pollOnce]
  have hsub := visitAll_pushed_sublist join m files
  refine ⟨hnodup.sublist hsub, fun p hp => hsub.subset hp, ?_⟩
  intro o ho hd t ht hgt
  exact visitAll_pushes_ready join m files o t ho hd ht hgt

/-! ### Watcher and workers together -/

theorem listedPaths_sendDir (join : GoString → GoString) (s : Sys) (now : Int) :
    listedPaths join
      (s.sendDir.map (fun e => ({ entry := e, seenAt := now, checkedAt := now } : Observation)))
    = sysPaths join s := by
  simp only [listedPaths, sysPaths, List.filter_map, List.map_map]
  rfl

/-- A poll that starts with no path in flight keeps the invariant of prompt runs: no path
was pushed twice, the source directory names each path once, and every pushed path is in
flight or has left the source directory. -/
theorem step_poll_inv (join : GoString → GoString) (s : Sys) (now : Int)
    (hfree : s.inFlight = [])
    (hpushed : s.pushed.Nodup) (hdir : (sysPaths join s).Nodup)
    (hgone : ∀ p ∈ s.pushed, p ∈ s.inFlight ∨ p ∉ sysPaths join s) :
    (step join s (.poll now)).pushed.Nodup ∧
    (sysPaths join (step join s (.poll now))).Nodup ∧
    ∀ p ∈ (step join s (.poll now)).pushed,
      p ∈ (step join s (.poll now)).inFlight ∨ p ∉ sysPaths join (step join s (.poll now)) := by
  have hsub := visitAll_pushed_sublist join s.fileFirstSeen
    (s.sendDir.map (fun e => ({ entry := e, seenAt := now, checkedAt := now } : Observation)))
  rw [listedPaths_sendDir] at hsub
  simp only [step, pollOnce, sysPaths] at hsub ⊢
  refine ⟨?_, hdir, ?_⟩
  · rw [List.nodup_append]
    refine ⟨hpushed, hdir.sublist hsub, ?_⟩
    intro p hp hnew
    rcases hgone p hp with h | h
    · rw [hfree] at h; cases h
    · exact h (hsub.subset hnew)
  · intro p hp
    rcases List.mem_append.mp hp with h | h
    · rcases hgone p h with h2 | h2
      · rw [hfree] at h2; cases h2
      · exact Or.inr h2
    · exact Or.inl (List.mem_append_right _ h)

theorem step_sent_inv (join : GoString → GoString) (s : Sys) (q : GoString)
    (hpushed : s.pushed.Nodup) (hdir : (sysPaths join s).Nodup)
    (hgone : ∀ p ∈ s.pushed, p ∈ s.inFlight ∨ p ∉ sysPaths join s) :
    (step join s (.sent q)).pushed.Nodup ∧
    (sysPaths join (step join s (.sent q))).Nodup ∧
    ∀ p ∈ (step join s (.sent q)).pushed,
      p ∈ (step join s (.sent q)).inFlight ∨ p ∉ sysPaths join (step join s (.sent q)) := by
  by_cases hen : q ∈ s.inFlight ∧ ∃ e ∈ s.sendDir, e.isDir = false ∧ join e.name = q
  · have hstep : step join s (.sent q) =
        { s with sendDir := s.sendDir.filter (fun e => join e.name != q),
                 inFlight := s.inFlight.erase q } := by
      simp only [step, if_pos hen]
    rw [hstep]
    have hmem : ∀ p, p ∈ sysPaths join
        { s with sendDir := s.sendDir.filter (fun e => join e.name != q),
                 inFlight := s.inFlight.erase q } ↔ p ∈ sysPaths join s ∧ p ≠ q := by
      intro p
      simp only [sysPaths, List.mem_map, List.mem_filter, bne_iff_ne, ne_eq]
      constructor
      · rintro ⟨e, ⟨⟨he, hne⟩, hd⟩, rfl⟩
        exact ⟨⟨e, ⟨he, hd⟩, rfl⟩, hne⟩
      · rintro ⟨⟨e, ⟨he, hd⟩, rfl⟩, hne⟩
        exact ⟨e, ⟨⟨he, hne⟩, hd⟩, rfl⟩
    have hsubl : List.Sublist (sysPaths join
        { s with sendDir := s.sendDir.filter (fun e => join e.name != q),
                 inFlight := s.inFlight.erase q }) (sysPaths join s) := by
      simp only [sysPaths]
      exact ((List.filter_sublist _).filter _).map _
    refine ⟨hpushed, hdir.sublist hsubl, ?_⟩
    intro p hp
    by_cases hpq : p = q
    · right
      rw [hmem]
      exact fun h => h.2 hpq
    · rcases hgone p hp with h | h
      · exact Or.inl ((List.mem_erase_of_ne hpq).mpr h)
      · right
        rw [hmem]
        exact fun h2 => h h2.1
  · have hstep : step join s (.sent q) = s := by
      simp only [step, if_neg hen]
    rw [hstep]
    exact ⟨hpushed, hdir, hgone⟩

theorem run_prompt_inv (join : GoString → GoString) :
    ∀ (events : List Event) (s : Sys),
      s.pushed.Nodup → (sysPaths join s).Nodup →
      (∀ p ∈ s.pushed, p ∈ s.inFlight ∨ p ∉ sysPaths join s) →
      prompt join s events = true →
      (run join s events).pushed.Nodup := by
  intro events
  induction events with
  | nil => intro s h _ _ _; exact h
  | cons e rest ih =>
    intro s hpushed hdir hgone hprompt
    simp only [prompt, Bool.and_eq_true] at hprompt
    have hrun : run join s (e :: rest) = run join (step join s e) rest := by
      simp [run]
    rw [hrun]
    cases e with
    | poll now =>
      have hfree : s.inFlight = [] := by simpa using hprompt.1
      obtain ⟨h1, h2, h3⟩ := step_poll_inv join s now hfree hpushed hdir hgone
      exact ih _ h1 h2 h3 hprompt.2
    | sent q =>
      obtain ⟨h1, h2, h3⟩ := step_sent_inv join s q hpushed hdir hgone
      exact ih _ h1 h2 h3 hprompt.2

/-! ### Evaluations -/

/-- A line of 14 characters and 27 bytes is long enough for the slice `[:19]`. -/
theorem sliceTo_counts_bytes :
    (bytes "ошибка сервера").length = 27 ∧
    sliceTo (bytes "ошибка сервера") 19 = Except.ok ((bytes "ошибка сервера").take 19) :=
  ⟨by decide, rfl⟩

/-- With the first archive of the day present, a rotation writes the second and keeps the
first. -/
theorem rotateLogs_second_archive :
    rotateLogs (bytes "app_daily.log")
      { renameErr := false, tarErr := false, tarPartial := none, removeErr := false }
      { active := some (bytes "new"),
        dated := [(bytes "2024-01-02-1.tar.gz", bytes "old")] } (bytes "2024-01-02")
    = ({ active := some [],
         dated := [(bytes "2024-01-02-2.tar.gz", bytes "new"),
                   (bytes "2024-01-02-1.tar.gz", bytes "old")] },
       RotateOutcome.rotated 2 (bytes "2024-01-02-2.tar.gz")) := by
  decide

/-! ## The claims -/

/-- C1: evaluation of `moveToArchive` at two inputs on which the collision loop never ends.
First, a file whose 255-byte name is already present in the dated directory.  Second,
`report.csv` when that directory holds the 85 names under which the first 85 files called
`report.csv` were archived that day.  In both, every name present is skipped, and the next
candidate is longer than the filesystem accepts, so `os.Stat` fails with an error that is
not a not-exist error; the loop, which is left only on a not-exist error, then returns for
no bound on the number of its iterations. -/
theorem moveToArchive_never_returns :
    (∀ fuel, collisionLoop (dirStat 255 [longName]) fuel longName 1 = none) ∧
    moveToArchive { mkdirErr := false, renameErr := false, nameMax := 255 }
        (some [longName]) longName
      = (MoveOutcome.neverReturns, some [longName]) ∧
    (∀ fuel, collisionLoop (dirStat 255 (candidates 85 (bytes "report.csv") 1)) fuel
        (bytes "report.csv") 1 = none) ∧
    (moveToArchive { mkdirErr := false, renameErr := false, nameMax := 255 }
        (some (candidates 85 (bytes "report.csv") 1)) (bytes "report.csv")).1
      = MoveOutcome.neverReturns := by
  have hlong : ∀ fuel, collisionLoop (dirStat 255 [longName]) fuel longName 1 = none := by
    apply collisionLoop_diverges_after 255 [longName] 1 longName 1
    · intro x hx
      simpa [candidates] using hx
    · have h1 := nextDest_length longName 1
      have h2 : longName.length = 255 := by simp [longName]
      simp only [candidateAt]
      omega
  have hmany : ∀ fuel, collisionLoop (dirStat 255 (candidates 85 (bytes "report.csv") 1)) fuel
      (bytes "report.csv") 1 = none := by
    apply collisionLoop_diverges_after 255 _ 85 (bytes "report.csv") 1
    · intro x hx
      exact hx
    · decide
  have hmove := moveToArchive_of_diverges
    { mkdirErr := false, renameErr := false, nameMax := 255 }
    (candidates 85 (bytes "report.csv") 1) (bytes "report.csv") hmany
  refine ⟨hlong, ?_, hmany, ?_⟩
  · exact moveToArchive_of_diverges
      { mkdirErr := false, renameErr := false, nameMax := 255 } [longName] longName hlong
  · rw [hmove]

/-- C2: evaluation of `moveToArchive` when `report.csv` and `report_1.csv` are both present
in the dated directory: the destination chosen for `report.csv` is `report_1_2.csv`, and
not `report_2.csv`, because the stem is recomputed from the previous candidate. -/
theorem moveToArchive_suffixes_accumulate :
    moveToArchive { mkdirErr := false, renameErr := false, nameMax := 255 }
        (some [(bytes "report.csv"), (bytes "report_1.csv")]) (bytes "report.csv")
      = (MoveOutcome.moved (bytes "report_1_2.csv"),
          some [(bytes "report_1_2.csv"), (bytes "report.csv"), (bytes "report_1.csv")])
    ∧ (bytes "report_2.csv") ∉ [(bytes "report.csv"), (bytes "report_1.csv")] := by
  decide

/-- C8: when the move succeeds, `rotateLogs` numbers the archive with the smallest positive
`n` whose name `<date>-<n>.tar.gz` is free in `<logDir>/<date>/` (the directory as the loop
finds it: the entries already there and the log just moved in).  The numbering loop ends
within one iteration per entry plus one; the names numbered `1 … n-1` are all present and
the name numbered `n` is not; `tar` is run on exactly that name; and when it succeeds the
archive is in the directory under that name while every other entry that was there is still
there with its content. -/
theorem rotateLogs_lowest_free_number (logFile : GoString) (env : RotateEnv) (fs : LogFS)
    (date content : GoString) (hactive : fs.active = some content)
    (hmove : env.renameErr = false) :
    ∃ n, 1 ≤ n ∧
      tarName date n ≠ logFile ∧ tarName date n ∉ mapKeys fs.dated ∧
      (∀ m, 1 ≤ m → m < n → tarName date m = logFile ∨ tarName date m ∈ mapKeys fs.dated) ∧
      (∀ fuel, (mapKeys (mapSet fs.dated logFile content)).length < fuel →
        pickTarName (mapKeys (mapSet fs.dated logFile content)) date fuel
          = some (n, tarName date n)) ∧
      (env.tarErr = true →
        (rotateLogs logFile env fs date).2 = RotateOutcome.compressFailed (tarName date n)) ∧
      (env.tarErr = false →
        (rotateLogs logFile env fs date).2 = RotateOutcome.rotated n (tarName date n) ∧
        mapGet (rotateLogs logFile env fs date).1.dated (tarName date n) = some content ∧
        ∀ name old, name ≠ logFile → mapGet fs.dated name = some old →
          mapGet (rotateLogs logFile env fs date).1.dated name = some old) := by
  obtain ⟨n, hn, hfree, hall, hpick⟩ :=
    pickTarName_spec (mapKeys (mapSet fs.dated logFile content)) date
  have hp := hpick ((mapKeys (mapSet fs.dated logFile content)).length + 1) (by omega)
  rw [mem_mapKeys_mapSet] at hfree
  have hne : tarName date n ≠ logFile := fun h => hfree (Or.inl h)
  have hnew : tarName date n ∉ mapKeys fs.dated := fun h => hfree (Or.inr h)
  refine ⟨n, hn, hne, hnew, ?_, hpick, ?_, ?_⟩
  · intro m h1 h2
    exact (mem_mapKeys_mapSet fs.dated logFile (tarName date m) content).mp (hall m h1 h2)
  · intro ht
    simp [rotateLogs, hactive, hmove, ht, hp]
  · intro ht
    refine ⟨by simp [rotateLogs, hactive, hmove, ht, hp], ?_, ?_⟩
    · cases hrm : env.removeErr with
      | true =>
        simp only [rotateLogs, hactive, hmove, ht, hp, hrm, Bool.false_eq_true, if_false,
          if_true]
        exact mapGet_mapSet_self _ _ _
      | false =>
        simp only [rotateLogs, hactive, hmove, ht, hp, hrm, Bool.false_eq_true, if_false]
        rw [mapGet_mapDelete_ne _ _ _ hne]
        exact mapGet_mapSet_self _ _ _
    · intro name old hname hold
      have hkey : name ∈ mapKeys fs.dated := by
        rw [mem_mapKeys_iff, hold]
        exact Option.some_ne_none _
      have hnt : name ≠ tarName date n := fun h => hnew (h ▸ hkey)
      have hkeep : mapGet (mapSet (mapSet fs.dated logFile content) (tarName date n) content)
          name = some old := by
        rw [mapGet_mapSet_ne _ _ _ _ hnt, mapGet_mapSet_ne _ _ _ _ hname]
        exact hold
      cases hrm : env.removeErr with
      | true =>
        simp only [rotateLogs, hactive, hmove, ht, hp, hrm, Bool.false_eq_true, if_false,
          if_true]
        exact hkeep
      | false =>
        simp only [rotateLogs, hactive, hmove, ht, hp, hrm, Bool.false_eq_true, if_false]
        rw [mapGet_mapDelete_ne _ _ _ hname]
        exact hkeep

/-- Witness of C8: the first archive of the day is present when the log is rotated. -/
theorem rotateLogs_lowest_free_number_witness :
    ∃ n, 1 ≤ n ∧
      tarName (bytes "2024-01-02") n ∉ [bytes "2024-01-02-1.tar.gz"] ∧
      (rotateLogs (bytes "app_daily.log")
        { renameErr := false, tarErr := false, tarPartial := none, removeErr := false }
        { active := some (bytes "new"),
          dated := [(bytes "2024-01-02-1.tar.gz", bytes "old")] } (bytes "2024-01-02")).2
        = RotateOutcome.rotated n (tarName (bytes "2024-01-02") n) := by
  obtain ⟨n, hn, _, hnew, _, _, _, h⟩ :=
    rotateLogs_lowest_free_number (bytes "app_daily.log")
      { renameErr := false, tarErr := false, tarPartial := none, removeErr := false }
      { active := some (bytes "new"),
        dated := [(bytes "2024-01-02-1.tar.gz", bytes "old")] } (bytes "2024-01-02")
      (bytes "new") rfl rfl
  exact ⟨n, hn, hnew, (h rfl).1⟩

/-- C3: evaluation of two polls of `watchFiles`, starting from an empty tracker.  The file
is first seen by the poll at 0 s, is written to again at 2.5 s, and is pushed by the poll at
3 s, half a second after its last modification: readiness is taken from the first-seen time
alone. -/
theorem watcher_pushes_recently_modified :
    (pollOnce joinSend (pollOnce joinSend [] (some [firstLook])).fileFirstSeen
      (some [secondLook])).pushed = [(bytes "send/data.csv")]
    ∧ secondLook.checkedAt - secondLook.entry.modTime < 2 * Second := by
  decide

/-- C4 (as stated, refuted): no event fails, yet the path is pushed twice.  The file is
first seen at 0 s, pushed by the poll at 3 s, and pushed again by the poll at 4 s because
the worker that received it has not returned yet; that worker then returns successfully. -/
theorem watcher_pushes_twice_while_in_flight :
    (run joinSend
      { sendDir := oneFileDir, fileFirstSeen := [], pushed := [], inFlight := [] }
      [Event.poll 0, Event.poll 3000000000, Event.poll 4000000000,
       Event.sent (bytes "send/data.csv")]).pushed
      = [(bytes "send/data.csv"), (bytes "send/data.csv")] := by
  decide

/-- C4 (amended): start with nothing pushed and a source directory that names each path
once.  For every sequence of polls and successful worker returns in which no path is in
flight when a poll starts (every worker that received a path has sent and archived it
before the watcher reads the directory again), no path is pushed more than once. -/
theorem watcher_pushes_once_when_prompt (join : GoString → GoString) (s : Sys)
    (events : List Event) (hnone : s.pushed = []) (hdir : (sysPaths join s).Nodup)
    (hprompt : prompt join s events = true) :
    (run join s events).pushed.Nodup := by
  apply run_prompt_inv join events s _ hdir _ hprompt
  · rw [hnone]; exact List.nodup_nil
  · intro p hp
    rw [hnone] at hp
    cases hp

/-- Witness of C4 (amended): the file is first seen at 0 s, pushed at 3 s, sent and archived,
and the poll at 4 s no longer finds it. -/
theorem watcher_pushes_once_when_prompt_witness :
    (run joinSend
      { sendDir := oneFileDir, fileFirstSeen := [], pushed := [], inFlight := [] }
      [Event.poll 0, Event.poll 3000000000, Event.sent (bytes "send/data.csv"),
       Event.poll 4000000000]).pushed.Nodup :=
  watcher_pushes_once_when_prompt joinSend
    { sendDir := oneFileDir, fileFirstSeen := [], pushed := [], inFlight := [] }
    [Event.poll 0, Event.poll 3000000000, Event.sent (bytes "send/data.csv"),
     Event.poll 4000000000]
    rfl (by decide) (by decide)

/-- C5: after a poll whose directory read succeeds, the keys of `fileFirstSeen` are exactly
the full paths of the non-directory entries of that poll's listing; a poll whose directory
read fails leaves `fileFirstSeen` unchanged. -/
theorem watcher_tracker_keys (join : GoString → GoString) (m : GoMap Int)
    (files : List Observation) :
    (∀ p, p ∈ mapKeys (pollOnce join m (some files)).fileFirstSeen ↔
      p ∈ listedPaths join files) ∧
    (pollOnce join m none).fileFirstSeen = m := by
  refine ⟨?_, rfl⟩
  intro p
  simp only [pollOnce]
  rw [mem_mapKeys_iff, mapGet_forget, ← visitAll_currentFiles join m files p]
  by_cases hcur : p ∈ (visitAll join m files).currentFiles
  · simp only [hcur, if_true, iff_true]
    exact visitAll_tracks join m files p hcur
  · simp [hcur]

/-- C6: whenever the HTTP exchange ends in a transport error or in a response whose status
code is not 200, `sendFile` returns a non-nil error, leaves every field of the transfer
statistics as it was, does not call `moveToArchive`, and leaves the archive directory
untouched (the file stays where it is). -/
theorem sendFile_failure_is_clean (env : SendEnv) (stats : TransferStats)
    (destDir : Option (List GoString)) (base : GoString)
    (h : env.http = HttpOutcome.transportError ∨
      ∃ code, env.http = HttpOutcome.response code ∧ code ≠ 200) :
    (sendFile env stats destDir base).err ≠ none ∧
    (sendFile env stats destDir base).stats = stats ∧
    (sendFile env stats destDir base).move = none ∧
    (sendFile env stats destDir base).destDir = destDir := by
  unfold sendFile
  rcases h with h | ⟨code, h, hcode⟩
  · rw [h]
    split_ifs <;> simp
  · rw [h]
    have hc : (code != 200) = true := by simpa using hcode
    simp only [hc, if_true]
    split_ifs <;> simp

/-- Witness of C6: the server answers 500 Internal Server Error. -/
theorem sendFile_failure_is_clean_witness :
    (sendFile (serverAnswers 500) ⟨0, 0, [], 0⟩ none (bytes "data.csv")).err ≠ none ∧
    (sendFile (serverAnswers 500) ⟨0, 0, [], 0⟩ none (bytes "data.csv")).stats = ⟨0, 0, [], 0⟩ ∧
    (sendFile (serverAnswers 500) ⟨0, 0, [], 0⟩ none (bytes "data.csv")).move = none ∧
    (sendFile (serverAnswers 500) ⟨0, 0, [], 0⟩ none (bytes "data.csv")).destDir = none :=
  sendFile_failure_is_clean (serverAnswers 500) ⟨0, 0, [], 0⟩ none (bytes "data.csv")
    (Or.inr ⟨500, rfl, by decide⟩)

/-- C7 (as stated, refuted): the move succeeds and `tar` fails; afterwards no file exists
at the active log path. -/
theorem rotateLogs_compress_failure_moves_log :
    rotateLogs (bytes "app_daily.log")
      { renameErr := false, tarErr := true, tarPartial := none, removeErr := false }
      { active := some (bytes "old"), dated := [] } (bytes "2024-01-02")
    = ({ active := none, dated := [((bytes "app_daily.log"), (bytes "old"))] },
       RotateOutcome.compressFailed (bytes "2024-01-02-1.tar.gz")) := by
  decide

/-- C7 (amended): with a log file present, a failure at the move step aborts the rotation
and leaves the log directory as it was, the log file still at the active path.  A failure
at the compress step aborts the rotation after the move: no file is left at the active
path, the uncompressed log stays at `<logDir>/<date>/<logFile>`, and a following
`checkLogSizeAndRotate` finds no file and does nothing. -/
theorem rotateLogs_failure_states (logFile : GoString) (env : RotateEnv) (fs : LogFS)
    (date content : GoString) (hactive : fs.active = some content) :
    (env.renameErr = true →
      rotateLogs logFile env fs date = (fs, RotateOutcome.moveFailed)) ∧
    (env.renameErr = false → env.tarErr = true →
      ∃ tarFileName,
        (rotateLogs logFile env fs date).2 = RotateOutcome.compressFailed tarFileName ∧
        (rotateLogs logFile env fs date).1.active = none ∧
        mapGet (rotateLogs logFile env fs date).1.dated logFile = some content ∧
        ∀ env2 today,
          checkLogSizeAndRotate logFile env2 (rotateLogs logFile env fs date).1 today
            = (rotateLogs logFile env fs date).1) := by
  constructor
  · intro hr
    simp [rotateLogs, hactive, hr]
  · intro hr ht
    obtain ⟨n, _, hfree, _, hpick⟩ :=
      pickTarName_spec (mapKeys (mapSet fs.dated logFile content)) date
    have hp := hpick ((mapKeys (mapSet fs.dated logFile content)).length + 1) (by omega)
    have hlog : mapGet (mapSet fs.dated logFile content) logFile = some content :=
      mapGet_mapSet_self _ _ _
    have hne : logFile ≠ tarName date n := by
      intro heq
      apply hfree
      rw [← heq, mem_mapKeys_iff, hlog]
      exact Option.some_ne_none _
    refine ⟨tarName date n, ?_, ?_, ?_, ?_⟩
    · simp [rotateLogs, hactive, hr, ht, hp]
    · simp [rotateLogs, hactive, hr, ht, hp]
    · simp only [rotateLogs, hactive, hr, ht, hp, Bool.false_eq_true, if_false, if_true]
      cases env.tarPartial with
      | none => exact hlog
      | some partialArchive =>
        simp only
        rw [mapGet_mapSet_ne _ _ _ _ hne]
        exact hlog
    · intro env2 today
      simp [rotateLogs, hactive, hr, ht, hp, checkLogSizeAndRotate]

/-- Witness of C7 (amended): a present log file, a successful move and a failing `tar`. -/
theorem rotateLogs_failure_states_witness :
    ∃ tarFileName,
      (rotateLogs (bytes "app_daily.log")
        { renameErr := false, tarErr := true, tarPartial := none, removeErr := false }
        { active := some (bytes "old"), dated := [] } (bytes "2024-01-02")).2
        = RotateOutcome.compressFailed tarFileName :=
  have h := (rotateLogs_failure_states (bytes "app_daily.log")
    { renameErr := false, tarErr := true, tarPartial := none, removeErr := false }
    { active := some (bytes "old"), dated := [] } (bytes "2024-01-02") (bytes "old") rfl).2 rfl rfl
  ⟨h.choose, h.choose_spec.1⟩

/-- C9 (as stated, refuted): a path first seen at time 0 is reported not ready when the
clock reads exactly 2 seconds, although the time elapsed is at least 2 seconds. -/
theorem isFileUnchanged_false_at_window :
    isFileUnchanged [((bytes "send/data.csv"), 0)] (bytes "send/data.csv") (2 * Second) = false
    ∧ 2 * Second - 0 ≥ 2 * Second := by
  decide

/-- C9 (amended): `isFileUnchanged` reports a path ready exactly when the path is tracked
and strictly more than 2 seconds have passed since its first-seen time; in particular it
reports not ready at exactly 2 seconds and for every untracked path. -/
theorem isFileUnchanged_ready_iff (m : GoMap Int) (filePath : GoString) (now : Int) :
    isFileUnchanged m filePath now = true ↔
      ∃ firstSeen, mapGet m filePath = some firstSeen ∧ now - firstSeen > 2 * Second :=
  isFileUnchanged_iff m filePath now

/-- C10: evaluation of `checkLastRowAndRotateBeforeWrite` on a log whose last line is
`</html>` (7 bytes, the tail of a logged response body): whatever `time.Parse` would do,
the slice `lastLine[:19]` panics with slice bounds out of range. -/
theorem checkLastRow_panics_on_short_line (lib : TimeLib) (logFile : GoString)
    (env : RotateEnv) (midnight : Int) :
    checkLastRowAndRotateBeforeWrite lib logFile env
      { active := some logWithBody, dated := [] } midnight
      = Except.error (Panic.sliceBounds 19 7) := by
  rfl

end FileSender
